import Mathlib

/-!
Verification development for the seedable random library
(`SeedRandom`): a shallow embedding of the seed hasher, the two PRNG
cores (Mulberry32 and xoshiro128**), the public facade operations and
the state-management operations, together with theorems about them.

Machine integers are modelled as `Nat` bit patterns, masked with
`% 2^32` exactly where the JavaScript semantics wraps (`Math.imul`,
`<<`, `>>>`, `|`, `^` all operate on the 32-bit bit pattern of their
operands, so a value and its signed reinterpretation are
interchangeable here).  Real arithmetic (`float()` results,
probabilities, weights) is modelled exactly over `ℚ`.  The rejection
loop inside `int(min,max)` is given an explicit fuel parameter; running
out of fuel is reported as the dedicated outcome `Outcome.spin`, which
corresponds to the JavaScript loop not having terminated yet.
-/

/-- Modulus of 32-bit unsigned arithmetic, `2^32`. -/
def M32 : Nat := 4294967296

/-- Wrapping 32-bit multiplication: the unsigned bit pattern of JavaScript
`Math.imul a b`. -/
def mul32 (a b : Nat) : Nat := a * b % M32

/-- Left rotation on 32-bit patterns, modelling the source's
`rotl(x, k) = (x << k) | (x >>> (32 - k))`; the operand is reduced to its
32-bit pattern first, exactly as the JavaScript coercions do. -/
def rotl32 (x k : Nat) : Nat := (((x % M32) <<< k) % M32) ||| ((x % M32) >>> (32 - k))

/-- Four 32-bit words: the shape of hash results, normalized seeds,
xoshiro128** state and state snapshots. -/
structure Vec4 where
  x0 : Nat
  x1 : Nat
  x2 : Nat
  x3 : Nat
deriving DecidableEq

/-- Initial accumulator values of `hashString` (h1, h2, h3, h4). -/
def hashInit : Vec4 := ⟨1779033703, 3144134277, 1013904242, 2773480762⟩

/-- One character step of `hashString`.  The four assignments of the source
run in order, so the `h4` line reads the value of `h1` assigned two lines
earlier in the same iteration, while the `h2` and `h3` lines still read the
pre-iteration `h2`/`h3`/`h4`. -/
def hashStep (w : Vec4) (k : Nat) : Vec4 :=
  let h1 := w.x1 ^^^ mul32 (w.x0 ^^^ k) 597399067
  let h2 := w.x2 ^^^ mul32 (w.x1 ^^^ k) 2869860233
  let h3 := w.x3 ^^^ mul32 (w.x2 ^^^ k) 951274213
  let h4 := h1 ^^^ mul32 (w.x3 ^^^ k) 2716044179
  ⟨h1, h2, h3, h4⟩

/-- Model of `hashString`: fold the per-character step over the character
codes of the input (the final `>>> 0` masks are identities here because the
accumulators are kept as unsigned patterns throughout). -/
def hashString (codes : List Nat) : Vec4 := codes.foldl hashStep hashInit

/-- Character codes of the decimal rendering of a natural number, as
JavaScript `String(n)` produces for safe integers. -/
def natDecCodes (n : Nat) : List Nat := (Nat.toDigits 10 n).map Char.toNat

/-- Character codes of the decimal rendering of an integer (code 45 is the
minus sign). -/
def decimalCodes (n : Int) : List Nat :=
  if n < 0 then 45 :: natDecCodes n.natAbs else natDecCodes n.toNat

/-- A seed as accepted by the constructor: a number or a string (given by
its character codes).  The `seed == null` entropy path is outside the
deterministic fragment modelled here. -/
inductive SeedInput where
  | int (n : Int)
  | str (codes : List Nat)
deriving DecidableEq

/-- Seed normalization of the constructor and of `setSeed`: strings are
hashed directly, numbers are hashed via their decimal string. -/
def normalizeSeed : SeedInput → Vec4
  | .int n => hashString (decimalCodes n)
  | .str codes => hashString codes

/-- The two generator algorithms. -/
inductive Algo where
  | mulberry
  | xoshiro
deriving DecidableEq

/-- One advance of the Mulberry32 core: returns the produced `uint32`
pattern and the updated counter `t`.  The counter is kept masked; every
JavaScript read of `t` goes through a 32-bit coercion, so only
`t mod 2^32` is observable. -/
def mulberryNext (t : Nat) : Nat × Nat :=
  let t2 := (t + 0x6d2b79f5) % M32
  let r := mul32 (t2 ^^^ (t2 >>> 15)) (t2 ||| 1)
  let r2 := r ^^^ ((r + mul32 (r ^^^ (r >>> 7)) (r ||| 61)) % M32)
  (r2 ^^^ (r2 >>> 14), t2)

/-- One advance of the xoshiro128** core (`nextUint32` of the source):
returns the result word and the updated four-word state, following the
source's in-place update order. -/
def xoNext (s : Vec4) : Nat × Vec4 :=
  let result := mul32 (rotl32 (s.x1 * 5) 7) 9
  let t := (s.x1 <<< 9) % M32
  let s2 := s.x2 ^^^ s.x0
  let s3 := s.x3 ^^^ s.x1
  let s1 := s.x1 ^^^ s2
  let s0 := s.x0 ^^^ s3
  let s2b := s2 ^^^ t
  let s3b := rotl32 s3 11
  (result, ⟨s0, s1, s2b, s3b⟩)

/-- Algorithm-specific generator core state: the private `#next`/`#uint32`
closures of the class.  `#xoshiro` is null exactly in the `mulb` case. -/
inductive Core where
  | mulb (t : Nat)
  | xosh (s : Vec4)
deriving DecidableEq

/-- Advance the core once, producing a `uint32` pattern.  For the mulberry
branch this is `(#next() * 2^32) >>> 0`, which recovers the raw 32-bit word
exactly; for xoshiro it is `nextUint32()`. -/
def Core.next : Core → Nat × Core
  | .mulb t => let p := mulberryNext t; (p.1, .mulb p.2)
  | .xosh s => let p := xoNext s; (p.1, .xosh p.2)

/-- The generator object: algorithm tag `#algo`, normalized seed `#seed`
and the core state held by the `#next`/`#uint32`/`#xoshiro` closures. -/
structure SeedRandom where
  algo : Algo
  seed : Vec4
  core : Core
deriving DecidableEq

/-- The constructor, for a present (non-null) seed: normalize the seed,
then install the requested core.  Mulberry32 uses only the first seed word;
xoshiro128** copies the four words (`seed.slice(0, 4)`). -/
def mkSeedRandom (seed : SeedInput) (algo : Algo) : SeedRandom :=
  let w := normalizeSeed seed
  match algo with
  | .mulberry => ⟨.mulberry, w, .mulb w.x0⟩
  | .xoshiro => ⟨.xoshiro, w, .xosh w⟩

/-- Method `uint32()`: one core advance. -/
def SeedRandom.uint32 (g : SeedRandom) : Nat × SeedRandom :=
  let p := Core.next g.core
  (p.1, { g with core := p.2 })

/-- Method `float()`: one core advance divided by `2^32`, exact over `ℚ`. -/
def SeedRandom.float (g : SeedRandom) : ℚ × SeedRandom :=
  let p := g.uint32
  ((p.1 : ℚ) / 4294967296, p.2)

/-- First `k` outputs of `uint32()` together with the generator after
those draws. -/
def drawsN : Nat → SeedRandom → List Nat × SeedRandom
  | 0, g => ([], g)
  | k + 1, g =>
    let p := g.uint32
    let q := drawsN k p.2
    (p.1 :: q.1, q.2)

/-- First `k` outputs of `float()` together with the generator after those
draws. -/
def floatsN : Nat → SeedRandom → List ℚ × SeedRandom
  | 0, g => ([], g)
  | k + 1, g =>
    let p := g.float
    let q := floatsN k p.2
    (p.1 :: q.1, q.2)

/-- Error kinds, one per `throw` site modelled here. -/
inductive Err where
  | invalidRange
  | emptyInput
  | invalidSampleSize
  | negativeWeight
  | zeroTotal
  | invalidProbability
  | stateRequiresXoshiro
deriving DecidableEq

/-- Outcome of a facade call: a value, a thrown error, or `spin` when the
modelling fuel of a rejection loop ran out (the JavaScript loop has not
terminated within that many iterations). -/
inductive Outcome (α : Type) where
  | ok (a : α)
  | err (e : Err)
  | spin
deriving DecidableEq

/-- Rejection loop of `int`: draw `uint32()` and repeat while the draw is
at least `limit`. -/
def rejectLoop (limit : Nat) : Nat → SeedRandom → Outcome Nat × SeedRandom
  | 0, g => (.spin, g)
  | fuel + 1, g =>
    let p := g.uint32
    if p.1 ≥ limit then rejectLoop limit fuel p.2 else (.ok p.1, p.2)

/-- Method `int(min, max)`: validation first, then bias-free rejection
sampling; `x % range` coincides with the JavaScript remainder because both
operands are non-negative. -/
def SeedRandom.int (fuel : Nat) (min max : Int) (g : SeedRandom) : Outcome Int × SeedRandom :=
  if min > max then (.err .invalidRange, g)
  else
    let range : Int := max - min + 1
    let limit : Int := 4294967296 / range * range
    match rejectLoop limit.toNat fuel g with
    | (.ok x, g2) => (.ok (min + (x : Int) % range), g2)
    | (.err e, g2) => (.err e, g2)
    | (.spin, g2) => (.spin, g2)

/-- Method `bool()`. -/
def SeedRandom.bool (g : SeedRandom) : Bool × SeedRandom :=
  let p := g.uint32
  (p.1 % 2 == 1, p.2)

/-- Method `between(min, max)`: validation first, then
`min + (max - min) * float()`. -/
def SeedRandom.between (min max : ℚ) (g : SeedRandom) : Outcome ℚ × SeedRandom :=
  if min ≥ max then (.err .invalidRange, g)
  else
    let p := g.float
    (.ok (min + (max - min) * p.1), p.2)

/-- Method `pick(arr)`: empty check first, then `arr[int(0, len - 1)]`. -/
def SeedRandom.pick [Inhabited α] (fuel : Nat) (arr : List α) (g : SeedRandom) :
    Outcome α × SeedRandom :=
  if arr.length = 0 then (.err .emptyInput, g)
  else
    match SeedRandom.int fuel 0 ((arr.length : Int) - 1) g with
    | (.ok j, g2) => (.ok (arr.getD j.toNat default), g2)
    | (.err e, g2) => (.err e, g2)
    | (.spin, g2) => (.spin, g2)

/-- The destructuring swap `[a[i], a[j]] = [a[j], a[i]]`: both old values
are read, then both positions are written.  Out-of-range indices never
occur in `shuffle`, and are modelled as a no-op. -/
def swapAt2 (a : List α) (i j : Nat) : List α :=
  match a.get? i, a.get? j with
  | some x, some y => (a.set i y).set j x
  | _, _ => a

/-- The Fisher–Yates loop of `shuffle`, iterating the index `i` downwards;
the argument is the current value of `i` and the loop stops once `i = 0`. -/
def shuffleAux (i : Nat) (a : List α) (fuel : Nat) (g : SeedRandom) :
    Outcome (List α) × SeedRandom :=
  match i with
  | 0 => (.ok a, g)
  | i + 1 =>
    match SeedRandom.int fuel 0 ((i : Int) + 1) g with
    | (.ok j, g2) => shuffleAux i (swapAt2 a (i + 1) j.toNat) fuel g2
    | (.err e, g2) => (.err e, g2)
    | (.spin, g2) => (.spin, g2)

/-- Method `shuffle(arr)`: Fisher–Yates over a copy of the input, from
`len - 1` down to `1`. -/
def SeedRandom.shuffle (fuel : Nat) (arr : List α) (g : SeedRandom) :
    Outcome (List α) × SeedRandom :=
  shuffleAux (arr.length - 1) arr fuel g

/-- Method `sample(arr, n)`: size validation first, then a truncated
shuffle. -/
def SeedRandom.sample (fuel : Nat) (arr : List α) (n : Int) (g : SeedRandom) :
    Outcome (List α) × SeedRandom :=
  if n < 0 ∨ n > (arr.length : Int) then (.err .invalidSampleSize, g)
  else
    match SeedRandom.shuffle fuel arr g with
    | (.ok a, g2) => (.ok (a.take n.toNat), g2)
    | (.err e, g2) => (.err e, g2)
    | (.spin, g2) => (.spin, g2)

/-- The weight-summing loop of `weighted`: `none` models the throw on the
first negative weight, otherwise the total is returned. -/
def sumWeights : List (α × ℚ) → Option ℚ
  | [] => some 0
  | (_, w) :: rest => if w < 0 then none else (sumWeights rest).map (w + ·)

/-- The selection loop of `weighted`: subtract each weight in order and
return the first value driving the remainder negative; if none does, fall
back to the last entry. -/
def weightedPick [Inhabited α] : List (α × ℚ) → ℚ → α
  | [], _ => default
  | (v, w) :: rest, r =>
    if r - w < 0 then v
    else
      match rest with
      | [] => v
      | _ :: _ => weightedPick rest (r - w)

/-- Method `weighted(choices)`: all three validations run before the
single `float()` draw. -/
def SeedRandom.weighted [Inhabited α] (choices : List (α × ℚ)) (g : SeedRandom) :
    Outcome α × SeedRandom :=
  if choices.length = 0 then (.err .emptyInput, g)
  else
    match sumWeights choices with
    | none => (.err .negativeWeight, g)
    | some total =>
      if total = 0 then (.err .zeroTotal, g)
      else
        let p := g.float
        (.ok (weightedPick choices (p.1 * total)), p.2)

/-- Method `chance(probability)`: validation first, then `float() < p`. -/
def SeedRandom.chance (p : ℚ) (g : SeedRandom) : Outcome Bool × SeedRandom :=
  if p < 0 ∨ p > 1 then (.err .invalidProbability, g)
  else
    let q := g.float
    (.ok (decide (q.1 < p)), q.2)

/-- Method `getSeed()`: returns the normalized seed. -/
def SeedRandom.getSeed (g : SeedRandom) : Vec4 := g.seed

/-- Method `setSeed(seed, algo?)`: re-normalizes the seed and reinstalls a
core.  Faithful to the source: `#algo` is updated from `algo ?? #algo`,
but the branch choosing the core tests the raw `algo` parameter, so an
omitted `algo` always lands in the xoshiro branch. -/
def SeedRandom.setSeed (g : SeedRandom) (seed : SeedInput) (algo : Option Algo) : SeedRandom :=
  let newAlgo := algo.getD g.algo
  let w := normalizeSeed seed
  if algo = some Algo.mulberry then ⟨newAlgo, w, .mulb w.x0⟩
  else ⟨newAlgo, w, .xosh w⟩

/-- Method `getState()`: `#xoshiro ? #xoshiro.state : null`; the xoshiro
state getter returns a copy of the current four words. -/
def SeedRandom.getState (g : SeedRandom) : Option Vec4 :=
  match g.core with
  | .mulb _ => none
  | .xosh s => some s

/-- Method `setState(state)`: throws unless the xoshiro core is active,
otherwise replaces the four state words with a copy of the snapshot. -/
def SeedRandom.setState (g : SeedRandom) (st : Vec4) : Outcome Unit × SeedRandom :=
  match g.core with
  | .mulb _ => (.err .stateRequiresXoshiro, g)
  | .xosh _ => (.ok (), { g with core := .xosh st })

/-- Spec-order variant of the hash step, modelled from the spec's words:
every right-hand side, including the `h4` line, reads the pre-update
values of `h1..h4`.  Kept for comparison with `hashStep`, which follows
the source. -/
def hashStepSpecOrder (w : Vec4) (k : Nat) : Vec4 :=
  ⟨w.x1 ^^^ mul32 (w.x0 ^^^ k) 597399067,
   w.x2 ^^^ mul32 (w.x1 ^^^ k) 2869860233,
   w.x3 ^^^ mul32 (w.x2 ^^^ k) 951274213,
   w.x0 ^^^ mul32 (w.x3 ^^^ k) 2716044179⟩

/-- Spec-order variant of `hashString`, folding `hashStepSpecOrder`. -/
def hashStringSpecOrder (codes : List Nat) : Vec4 := codes.foldl hashStepSpecOrder hashInit

/-- Base-16 digits of a natural number, most significant first, without
leading zeros: the digit-value view of JavaScript `n.toString(16)`. -/
def hexDigits (n : Nat) : List Nat :=
  if _hlt : n < 16 then [n] else hexDigits (n / 16) ++ [n % 16]
decreasing_by exact Nat.div_lt_self (by omega) (by omega)

/-- Numeric value of a most-significant-first base-16 digit list. -/
def unhex (l : List Nat) : Nat := l.foldl (fun acc d => 16 * acc + d) 0

/-- A 24-bit value rendered as exactly six hex digits, zero-padded. -/
def pad6 (t : Nat) : List Nat :=
  List.replicate (6 - (hexDigits t).length) 0 ++ hexDigits t

/-- The digit computation of `hexColor()`: the hex rendering of a
`uint32()` draw, padded on the left to 8 digits with zeros, truncated to
its first 6 digits (`padStart(8, "0").slice(0, 6)`). -/
def hexColorDigits (v : Nat) : List Nat :=
  (List.replicate (8 - (hexDigits v).length) 0 ++ hexDigits v).take 6

/-- Method `hexColor()`: one draw, rendered through `hexColorDigits`. -/
def SeedRandom.hexColor (g : SeedRandom) : List Nat × SeedRandom :=
  let p := g.uint32
  (hexColorDigits p.1, p.2)

/-- A heap of four-word arrays, used to model JavaScript array aliasing
for the snapshot-isolation property: references are indices into
`cells`. -/
structure Heap where
  cells : List Vec4
deriving DecidableEq

/-- Read the array behind a reference. -/
def Heap.read (h : Heap) (r : Nat) : Vec4 := h.cells.getD r ⟨0, 0, 0, 0⟩

/-- Overwrite the array behind a reference: an arbitrary caller-side
mutation of that array. -/
def Heap.write (h : Heap) (r : Nat) (v : Vec4) : Heap := ⟨h.cells.set r v⟩

/-- Allocate a new array, returning the extended heap and the fresh
reference. -/
def Heap.alloc (h : Heap) (v : Vec4) : Heap × Nat := (⟨h.cells ++ [v]⟩, h.cells.length)

/-- Core state in the heap model: mulberry's counter is a plain number;
xoshiro's closure variable `s` is a reference to a heap array. -/
inductive HCore where
  | mulb (t : Nat)
  | xosh (sRef : Nat)
deriving DecidableEq

/-- Generator in the heap model: `#seed` is a reference (returned as-is by
`getSeed()`), the core as above. -/
structure HGen where
  algo : Algo
  seedRef : Nat
  core : HCore
deriving DecidableEq

/-- Constructor in the heap model: the normalized seed array is allocated,
and the xoshiro branch allocates a separate copy for `s`
(`seed.slice(0, 4)`). -/
def hMkSeedRandom (seed : SeedInput) (algo : Algo) (h : Heap) : HGen × Heap :=
  let w := normalizeSeed seed
  let a1 := h.alloc w
  match algo with
  | .mulberry => (⟨.mulberry, a1.2, .mulb w.x0⟩, a1.1)
  | .xoshiro =>
    let a2 := a1.1.alloc w
    (⟨.xoshiro, a1.2, .xosh a2.2⟩, a2.1)

/-- Method `uint32()` in the heap model: the xoshiro core reads and writes
only its own state array. -/
def HGen.uint32 (g : HGen) (h : Heap) : Nat × HGen × Heap :=
  match g.core with
  | .mulb t =>
    let p := mulberryNext t
    (p.1, { g with core := .mulb p.2 }, h)
  | .xosh r =>
    let p := xoNext (h.read r)
    (p.1, g, h.write r p.2)

/-- First `k` outputs of `uint32()` in the heap model. -/
def hDrawsN : Nat → HGen → Heap → List Nat × HGen × Heap
  | 0, g, h => ([], g, h)
  | k + 1, g, h =>
    let p := HGen.uint32 g h
    let q := hDrawsN k p.2.1 p.2.2
    (p.1 :: q.1, q.2)

/-- Method `getSeed()` in the heap model: returns the `#seed` reference
itself, with no copy. -/
def HGen.getSeed (g : HGen) : Nat := g.seedRef

/-- Method `getState()` in the heap model: the snapshot holds a freshly
allocated copy of the state array (`s.slice()`), or null for mulberry. -/
def HGen.getState (g : HGen) (h : Heap) : Option Nat × Heap :=
  match g.core with
  | .mulb _ => (none, h)
  | .xosh r =>
    let a := h.alloc (h.read r)
    (some a.2, a.1)

/-- Method `setState(state)` in the heap model: the core is rebound to a
freshly allocated copy of the snapshot array (`v.s.slice()`). -/
def HGen.setState (g : HGen) (stRef : Nat) (h : Heap) : Outcome Unit × HGen × Heap :=
  match g.core with
  | .mulb _ => (.err .stateRequiresXoshiro, g, h)
  | .xosh _ =>
    let a := h.alloc (h.read stRef)
    (.ok (), { g with core := .xosh a.2 }, a.1)

/-- Concrete heap-model generator used as an example instance: constructed
from seed 7 with the xoshiro algorithm in an empty heap. -/
def hGenEx : HGen := (hMkSeedRandom (SeedInput.int 7) Algo.xoshiro ⟨[]⟩).1

/-- Heap produced alongside `hGenEx` by the constructor. -/
def hHeapEx : Heap := (hMkSeedRandom (SeedInput.int 7) Algo.xoshiro ⟨[]⟩).2

/-! ### Basic bounds on core outputs -/

theorem M32_eq : M32 = 2 ^ 32 := by norm_num [M32]

theorem M32_pos : 0 < M32 := by norm_num [M32]

theorem mul32_lt (a b : Nat) : mul32 a b < M32 := Nat.mod_lt _ M32_pos

theorem xor_lt_M32 {a b : Nat} (ha : a < M32) (hb : b < M32) : a ^^^ b < M32 := by
  rw [M32_eq] at ha hb ⊢
  exact Nat.xor_lt_two_pow ha hb

theorem shiftRight_le_self (n k : Nat) : n >>> k ≤ n := by
  rw [Nat.shiftRight_eq_div_pow]
  exact Nat.div_le_self _ _

theorem xor_shiftRight_lt {a : Nat} (k : Nat) (ha : a < M32) : a ^^^ a >>> k < M32 :=
  xor_lt_M32 ha (Nat.lt_of_le_of_lt (shiftRight_le_self a k) ha)

theorem mulberryNext_fst_lt (t : Nat) : (mulberryNext t).1 < M32 := by
  dsimp only [mulberryNext]
  exact xor_shiftRight_lt 14 (xor_lt_M32 (mul32_lt _ _) (Nat.mod_lt _ M32_pos))

theorem xoNext_fst_lt (s : Vec4) : (xoNext s).1 < M32 := mul32_lt _ _

theorem Core.next_fst_lt (c : Core) : (Core.next c).1 < M32 := by
  cases c with
  | mulb t => exact mulberryNext_fst_lt t
  | xosh s => exact xoNext_fst_lt s

theorem SeedRandom.uint32_fst_lt (g : SeedRandom) : g.uint32.1 < M32 :=
  Core.next_fst_lt g.core

theorem SeedRandom.float_fst_nonneg (g : SeedRandom) : 0 ≤ g.float.1 := by
  dsimp only [SeedRandom.float]
  positivity

theorem SeedRandom.float_fst_lt_one (g : SeedRandom) : g.float.1 < 1 := by
  dsimp only [SeedRandom.float]
  rw [div_lt_one (by norm_num)]
  have h := SeedRandom.uint32_fst_lt g
  simp only [M32] at h
  exact_mod_cast h

/-! ### C1: determinism of construction -/

/-- C1: for every seed (integer or text) and algorithm tag, two generators
constructed from the same pair produce identical `uint32()` and `float()`
sequences for any number of draws. -/
theorem c1_construction_deterministic (g1 g2 : SeedRandom) (s : SeedInput) (a : Algo)
    (k : Nat) (h1 : g1 = mkSeedRandom s a) (h2 : g2 = mkSeedRandom s a) :
    (drawsN k g1).1 = (drawsN k g2).1 ∧ (floatsN k g1).1 = (floatsN k g2).1 := by
  subst h1
  subst h2
  exact ⟨rfl, rfl⟩

theorem c1_witness :
    (drawsN 3 (mkSeedRandom (SeedInput.int 42) Algo.xoshiro)).1 =
      (drawsN 3 (mkSeedRandom (SeedInput.int 42) Algo.xoshiro)).1 ∧
    (floatsN 3 (mkSeedRandom (SeedInput.int 42) Algo.xoshiro)).1 =
      (floatsN 3 (mkSeedRandom (SeedInput.int 42) Algo.xoshiro)).1 :=
  c1_construction_deterministic _ _ (SeedInput.int 42) Algo.xoshiro 3 rfl rfl

/-! ### C2: state snapshot on the mulberry algorithm -/

/-- C2 (counterexample): on a generator constructed with the mulberry
algorithm, `getState()` does not fail: it returns the non-error value
null (`none`), contradicting the claim that it fails with
`UnsupportedForAlgorithm`. -/
theorem c2_counterexample :
    SeedRandom.getState (mkSeedRandom (SeedInput.int 1) Algo.mulberry) = none := rfl

/-- C2 (amended): when the active core is Mulberry32, `getState()` returns
null rather than failing, while `setState()` does fail with the
unsupported-algorithm error and leaves the generator unchanged. -/
theorem c2_amended (g : SeedRandom) (t : Nat) (st : Vec4) (h : g.core = Core.mulb t) :
    SeedRandom.getState g = none ∧
    SeedRandom.setState g st = (Outcome.err Err.stateRequiresXoshiro, g) := by
  unfold SeedRandom.getState SeedRandom.setState
  rw [h]
  exact ⟨rfl, rfl⟩

theorem c2_witness :
    SeedRandom.getState (mkSeedRandom (SeedInput.int 1) Algo.mulberry) = none ∧
    SeedRandom.setState (mkSeedRandom (SeedInput.int 1) Algo.mulberry) ⟨1, 2, 3, 4⟩ =
      (Outcome.err Err.stateRequiresXoshiro, mkSeedRandom (SeedInput.int 1) Algo.mulberry) :=
  c2_amended _ ((normalizeSeed (SeedInput.int 1)).x0) ⟨1, 2, 3, 4⟩ rfl

/-! ### C3: setSeed with omitted algorithm argument -/

/-- C3: evaluating `setSeed` at the failing input.  A generator constructed
with the mulberry algorithm, reseeded via `setSeed(5)` with the algorithm
argument omitted, keeps `#algo = "mulberry"` but installs a xoshiro128**
core (the branch tests the raw parameter, not the updated field), and its
next draw differs from the draw a correctly reinitialized Mulberry32 core
would produce from the same reseeded seed. -/
theorem c3_setSeed_reinstalls_xoshiro :
    (SeedRandom.setSeed (mkSeedRandom (SeedInput.int 1) Algo.mulberry)
        (SeedInput.int 5) none).algo = Algo.mulberry ∧
    (SeedRandom.setSeed (mkSeedRandom (SeedInput.int 1) Algo.mulberry)
        (SeedInput.int 5) none).core = Core.xosh (normalizeSeed (SeedInput.int 5)) ∧
    (drawsN 1 (SeedRandom.setSeed (mkSeedRandom (SeedInput.int 1) Algo.mulberry)
        (SeedInput.int 5) none)).1 ≠
      (drawsN 1 ⟨Algo.mulberry, normalizeSeed (SeedInput.int 5),
        Core.mulb (normalizeSeed (SeedInput.int 5)).x0⟩).1 := by
  refine ⟨rfl, rfl, by decide⟩

/-! ### C5: range bounds of float and int -/

theorem int_ok_bounds (fuel : Nat) (mn mx v : Int) (g g2 : SeedRandom)
    (h : SeedRandom.int fuel mn mx g = (Outcome.ok v, g2)) : mn ≤ v ∧ v ≤ mx := by
  simp only [SeedRandom.int] at h
  split at h
  · exact absurd h (by simp)
  · rename_i hc
    split at h
    · rename_i x g3 heq
      injection h with h1 h2
      injection h1 with h1
      have e1 : 0 ≤ (x : Int) % (mx - mn + 1) := Int.emod_nonneg _ (by omega)
      have e2 : (x : Int) % (mx - mn + 1) < mx - mn + 1 := Int.emod_lt_of_pos _ (by omega)
      rw [← h1]
      constructor <;> omega
    · exact absurd h (by simp)
    · exact absurd h (by simp)

theorem int_invalid_range (fuel : Nat) (mn mx : Int) (g : SeedRandom) (hc : mn > mx) :
    SeedRandom.int fuel mn mx g = (Outcome.err Err.invalidRange, g) := by
  simp only [SeedRandom.int]
  rw [if_pos hc]

/-- C5: every `float()` draw lies in `[0, 1)`; every value `int(min,max)`
returns lies in the inclusive range `[min, max]`; and `int` with
`min > max` fails with the invalid-range error without drawing. -/
theorem c5_range_bounds (g g2 : SeedRandom) (fuel : Nat) (mn mx v mn2 mx2 : Int) :
    (0 ≤ g.float.1 ∧ g.float.1 < 1) ∧
    (SeedRandom.int fuel mn mx g = (Outcome.ok v, g2) → mn ≤ v ∧ v ≤ mx) ∧
    (mn2 > mx2 → SeedRandom.int fuel mn2 mx2 g = (Outcome.err Err.invalidRange, g)) :=
  ⟨⟨SeedRandom.float_fst_nonneg g, SeedRandom.float_fst_lt_one g⟩,
   fun h => int_ok_bounds fuel mn mx v g g2 h,
   fun hc => int_invalid_range fuel mn2 mx2 g hc⟩

theorem c5_witness :
    (0 ≤ (SeedRandom.float (mkSeedRandom (SeedInput.int 42) Algo.xoshiro)).1 ∧
      (SeedRandom.float (mkSeedRandom (SeedInput.int 42) Algo.xoshiro)).1 < 1) ∧
    ((0 : Int) ≤ 0 ∧ (0 : Int) ≤ 10) ∧
    (SeedRandom.int 5 11 10 (mkSeedRandom (SeedInput.int 42) Algo.xoshiro) =
      (Outcome.err Err.invalidRange, mkSeedRandom (SeedInput.int 42) Algo.xoshiro)) := by
  have T := c5_range_bounds (mkSeedRandom (SeedInput.int 42) Algo.xoshiro)
    ⟨Algo.xoshiro, ⟨1843214009, 1629477093, 3693882720, 2146415245⟩,
      Core.xosh ⟨1932352721, 3505308476, 2386612697, 2203271415⟩⟩ 5 0 10 0 11 10
  exact ⟨T.1, T.2.1 (by decide), T.2.2 (by decide)⟩

/-! ### C8: fail-fast validation leaves the generator untouched -/

theorem sumWeights_none_of_mem_neg {α : Type} :
    ∀ l : List (α × ℚ), (∃ c ∈ l, c.2 < 0) → sumWeights l = none := by
  intro l
  induction l with
  | nil => rintro ⟨c, hc, _⟩; cases hc
  | cons hd tl ih =>
    obtain ⟨a, w⟩ := hd
    rintro ⟨c, hc, hneg⟩
    simp only [sumWeights]
    by_cases hw : w < 0
    · rw [if_pos hw]
    · rw [if_neg hw]
      rcases List.mem_cons.mp hc with heq | hmem
      · subst heq; exact absurd hneg hw
      · rw [ih ⟨c, hmem, hneg⟩]
        rfl

theorem sumWeights_eq_sum_of_nonneg {α : Type} :
    ∀ l : List (α × ℚ), (∀ c ∈ l, 0 ≤ c.2) → sumWeights l = some ((l.map Prod.snd).sum) := by
  intro l
  induction l with
  | nil => intro _; rfl
  | cons hd tl ih =>
    obtain ⟨a, w⟩ := hd
    intro hnn
    simp only [sumWeights]
    rw [if_neg (by simpa using not_lt.mpr (hnn (a, w) (List.mem_cons_self _ _))),
      ih (fun c hc => hnn c (List.mem_cons_of_mem _ hc))]
    simp

theorem weighted_neg_err {α : Type} [Inhabited α] (choices : List (α × ℚ)) (g : SeedRandom)
    (h : ∃ c ∈ choices, c.2 < 0) :
    SeedRandom.weighted choices g = (Outcome.err Err.negativeWeight, g) := by
  have hne : choices.length ≠ 0 := by
    obtain ⟨c, hc, _⟩ := h
    cases choices
    · cases hc
    · simp
  simp only [SeedRandom.weighted]
  rw [if_neg hne, sumWeights_none_of_mem_neg choices h]

theorem weighted_zero_err {α : Type} [Inhabited α] (choices : List (α × ℚ)) (g : SeedRandom)
    (hne : choices ≠ []) (hnn : ∀ c ∈ choices, 0 ≤ c.2)
    (hsum : (choices.map Prod.snd).sum = 0) :
    SeedRandom.weighted choices g = (Outcome.err Err.zeroTotal, g) := by
  have hlen : choices.length ≠ 0 := by
    cases choices
    · exact absurd rfl hne
    · simp
  simp only [SeedRandom.weighted]
  rw [if_neg hlen, sumWeights_eq_sum_of_nonneg choices hnn, hsum]
  rfl

/-- C8: every validation of the facade and state operations happens before
any draw or state mutation, so a failing call returns the generator
unchanged: `int` with inverted bounds, `between` with `min ≥ max`, `pick`
on an empty sequence, `sample` with a negative or oversized count,
`weighted` with an empty list, a negative weight, or zero total weight,
`chance` with a probability outside `[0, 1]`, and `setState` on a
non-xoshiro generator. -/
theorem c8_fail_fast (g : SeedRandom) (fuel : Nat) (mn mx n : Int) (mn2 mx2 p : ℚ)
    (arr : List Nat) (choices1 choices2 : List (Nat × ℚ)) (st : Vec4) (t : Nat) :
    (mn > mx → SeedRandom.int fuel mn mx g = (Outcome.err Err.invalidRange, g)) ∧
    (mn2 ≥ mx2 → SeedRandom.between mn2 mx2 g = (Outcome.err Err.invalidRange, g)) ∧
    (SeedRandom.pick fuel ([] : List Nat) g = (Outcome.err Err.emptyInput, g)) ∧
    (n < 0 ∨ n > (arr.length : Int) →
      SeedRandom.sample fuel arr n g = (Outcome.err Err.invalidSampleSize, g)) ∧
    (SeedRandom.weighted ([] : List (Nat × ℚ)) g = (Outcome.err Err.emptyInput, g)) ∧
    ((∃ c ∈ choices1, c.2 < 0) →
      SeedRandom.weighted choices1 g = (Outcome.err Err.negativeWeight, g)) ∧
    (choices2 ≠ [] → (∀ c ∈ choices2, 0 ≤ c.2) → (choices2.map Prod.snd).sum = 0 →
      SeedRandom.weighted choices2 g = (Outcome.err Err.zeroTotal, g)) ∧
    (p < 0 ∨ p > 1 → SeedRandom.chance p g = (Outcome.err Err.invalidProbability, g)) ∧
    (g.core = Core.mulb t → SeedRandom.setState g st = (Outcome.err Err.stateRequiresXoshiro, g)) := by
  refine ⟨fun hc => int_invalid_range fuel mn mx g hc, fun hc => ?_, rfl, fun hc => ?_, rfl,
    fun hc => weighted_neg_err choices1 g hc,
    fun h1 h2 h3 => weighted_zero_err choices2 g h1 h2 h3, fun hc => ?_, fun hc => ?_⟩
  · simp only [SeedRandom.between]
    rw [if_pos hc]
  · simp only [SeedRandom.sample]
    rw [if_pos hc]
  · simp only [SeedRandom.chance]
    rw [if_pos hc]
  · unfold SeedRandom.setState
    rw [hc]

theorem c8_witness :
    (SeedRandom.int 10 5 3 (mkSeedRandom (SeedInput.int 1) Algo.mulberry) =
      (Outcome.err Err.invalidRange, mkSeedRandom (SeedInput.int 1) Algo.mulberry)) ∧
    (SeedRandom.between 1 1 (mkSeedRandom (SeedInput.int 1) Algo.mulberry) =
      (Outcome.err Err.invalidRange, mkSeedRandom (SeedInput.int 1) Algo.mulberry)) ∧
    (SeedRandom.pick 10 ([] : List Nat) (mkSeedRandom (SeedInput.int 1) Algo.mulberry) =
      (Outcome.err Err.emptyInput, mkSeedRandom (SeedInput.int 1) Algo.mulberry)) ∧
    (SeedRandom.sample 10 [7] (-1) (mkSeedRandom (SeedInput.int 1) Algo.mulberry) =
      (Outcome.err Err.invalidSampleSize, mkSeedRandom (SeedInput.int 1) Algo.mulberry)) ∧
    (SeedRandom.weighted ([] : List (Nat × ℚ)) (mkSeedRandom (SeedInput.int 1) Algo.mulberry) =
      (Outcome.err Err.emptyInput, mkSeedRandom (SeedInput.int 1) Algo.mulberry)) ∧
    (SeedRandom.weighted [((0 : Nat), (-1 : ℚ))] (mkSeedRandom (SeedInput.int 1) Algo.mulberry) =
      (Outcome.err Err.negativeWeight, mkSeedRandom (SeedInput.int 1) Algo.mulberry)) ∧
    (SeedRandom.weighted [((0 : Nat), (0 : ℚ))] (mkSeedRandom (SeedInput.int 1) Algo.mulberry) =
      (Outcome.err Err.zeroTotal, mkSeedRandom (SeedInput.int 1) Algo.mulberry)) ∧
    (SeedRandom.chance 2 (mkSeedRandom (SeedInput.int 1) Algo.mulberry) =
      (Outcome.err Err.invalidProbability, mkSeedRandom (SeedInput.int 1) Algo.mulberry)) ∧
    (SeedRandom.setState (mkSeedRandom (SeedInput.int 1) Algo.mulberry) ⟨1, 2, 3, 4⟩ =
      (Outcome.err Err.stateRequiresXoshiro, mkSeedRandom (SeedInput.int 1) Algo.mulberry)) := by
  have T := c8_fail_fast (mkSeedRandom (SeedInput.int 1) Algo.mulberry) 10 5 3 (-1) 1 1 2
    [7] [((0 : Nat), (-1 : ℚ))] [((0 : Nat), (0 : ℚ))] ⟨1, 2, 3, 4⟩
    ((normalizeSeed (SeedInput.int 1)).x0)
  exact ⟨T.1 (by decide), T.2.1 (by decide), T.2.2.1, T.2.2.2.1 (Or.inl (by decide)),
    T.2.2.2.2.1, T.2.2.2.2.2.1 (by decide),
    T.2.2.2.2.2.2.1 (by decide) (by decide) (by simp),
    T.2.2.2.2.2.2.2.1 (Or.inr (by decide)), T.2.2.2.2.2.2.2.2 rfl⟩

/-! ### C4: snapshot round-trip for the xoshiro algorithm -/

theorem drawsN_congr_core : ∀ (k : Nat) (g1 g2 : SeedRandom), g1.core = g2.core →
    (drawsN k g1).1 = (drawsN k g2).1 ∧ (drawsN k g1).2.core = (drawsN k g2).2.core := by
  intro k
  induction k with
  | zero => intro g1 g2 h; exact ⟨rfl, h⟩
  | succ k ih =>
    intro g1 g2 h
    have h1 : g1.uint32.1 = g2.uint32.1 := by
      simp only [SeedRandom.uint32, h]
    have h2 : g1.uint32.2.core = g2.uint32.2.core := by
      simp only [SeedRandom.uint32, h]
    obtain ⟨e1, e2⟩ := ih g1.uint32.2 g2.uint32.2 h2
    simp only [drawsN]
    exact ⟨by rw [h1, e1], e2⟩

theorem drawsN_core_xosh : ∀ (k : Nat) (g : SeedRandom) (s : Vec4), g.core = Core.xosh s →
    ∃ s2, (drawsN k g).2.core = Core.xosh s2 := by
  intro k
  induction k with
  | zero => intro g s h; exact ⟨s, h⟩
  | succ k ih =>
    intro g s h
    have h2 : g.uint32.2.core = Core.xosh (xoNext s).2 := by
      simp only [SeedRandom.uint32, h, Core.next]
    simp only [drawsN]
    exact ih g.uint32.2 (xoNext s).2 h2

theorem setState_xosh (g : SeedRandom) (s st : Vec4) (h : g.core = Core.xosh s) :
    SeedRandom.setState g st = (Outcome.ok (), { g with core := Core.xosh st }) := by
  unfold SeedRandom.setState
  rw [h]

/-- C4: on a xoshiro generator, taking a snapshot with `getState()`,
drawing `k` values, restoring the snapshot with `setState` (which
succeeds) and drawing `k` values again reproduces exactly the same `k`
outputs. -/
theorem c4_snapshot_roundtrip (g : SeedRandom) (s st : Vec4) (k : Nat)
    (hx : g.core = Core.xosh s) (hst : SeedRandom.getState g = some st) :
    (SeedRandom.setState (drawsN k g).2 st).1 = Outcome.ok () ∧
    (drawsN k (SeedRandom.setState (drawsN k g).2 st).2).1 = (drawsN k g).1 := by
  have hs : st = s := by
    unfold SeedRandom.getState at hst
    rw [hx] at hst
    injection hst with h
    exact h.symm
  obtain ⟨s2, h2⟩ := drawsN_core_xosh k g s hx
  rw [setState_xosh _ s2 st h2]
  refine ⟨rfl, ?_⟩
  have hcore : ({ (drawsN k g).2 with core := Core.xosh st } : SeedRandom).core = g.core := by
    rw [hx, hs]
  exact (drawsN_congr_core k _ g hcore).1

theorem c4_witness :
    (SeedRandom.setState (drawsN 2 (mkSeedRandom (SeedInput.int 42) Algo.xoshiro)).2
        ⟨1843214009, 1629477093, 3693882720, 2146415245⟩).1 = Outcome.ok () ∧
    (drawsN 2 (SeedRandom.setState (drawsN 2 (mkSeedRandom (SeedInput.int 42) Algo.xoshiro)).2
        ⟨1843214009, 1629477093, 3693882720, 2146415245⟩).2).1 =
      (drawsN 2 (mkSeedRandom (SeedInput.int 42) Algo.xoshiro)).1 :=
  c4_snapshot_roundtrip _ ⟨1843214009, 1629477093, 3693882720, 2146415245⟩
    ⟨1843214009, 1629477093, 3693882720, 2146415245⟩ 2 (by decide) (by decide)

/-! ### C6: seed-hash update order -/

/-- C6 (counterexample): on the one-character input "a" (code 97), the hash
computed by the source differs from the hash the claim describes, in which
the `h4` update would read the pre-update `h1`. -/
theorem c6_counterexample : hashString [97] ≠ hashStringSpecOrder [97] := by decide

/-- C6 (amended): within one character step of the hash, the `h1`, `h2`
and `h3` updates read only pre-update accumulator values, but the `h4`
update reads the already-updated `h1` of the same step (sequential
assignment), not the pre-update `h1`. -/
theorem c6_amended (w : Vec4) (k : Nat) :
    (hashStep w k).x0 = w.x1 ^^^ mul32 (w.x0 ^^^ k) 597399067 ∧
    (hashStep w k).x1 = w.x2 ^^^ mul32 (w.x1 ^^^ k) 2869860233 ∧
    (hashStep w k).x2 = w.x3 ^^^ mul32 (w.x2 ^^^ k) 951274213 ∧
    (hashStep w k).x3 = (hashStep w k).x0 ^^^ mul32 (w.x3 ^^^ k) 2716044179 :=
  ⟨rfl, rfl, rfl, rfl⟩

/-! ### C7: shuffle returns a permutation -/

theorem set_pull_perm {α : Type} : ∀ (t : List α) (m : Nat) (y b : α),
    t.get? m = some y → List.Perm (y :: t.set m b) (b :: t) := by
  intro t
  induction t with
  | nil => intro m y b h; cases h
  | cons z t ih =>
    intro m y b h
    cases m with
    | zero =>
      rw [List.get?_cons_zero] at h
      injection h with h
      subst h
      simp only [List.set]
      exact List.Perm.swap b z t
    | succ m =>
      rw [List.get?_cons_succ] at h
      simp only [List.set]
      exact ((List.Perm.swap z y _).trans (List.Perm.cons z (ih m y b h))).trans
        (List.Perm.swap b z t)

theorem swapAt2_perm {α : Type} : ∀ (a : List α) (i j : Nat), List.Perm (swapAt2 a i j) a := by
  intro a
  induction a with
  | nil =>
    intro i j
    simp only [swapAt2, List.get?_nil]
    exact List.Perm.refl _
  | cons z t ih =>
    intro i j
    cases i with
    | zero =>
      cases j with
      | zero =>
        simp only [swapAt2, List.get?_cons_zero, List.set]
        exact List.Perm.refl _
      | succ j =>
        cases hj : t.get? j with
        | none =>
          simp only [swapAt2, List.get?_cons_zero, List.get?_cons_succ, hj]
          exact List.Perm.refl _
        | some y =>
          simp only [swapAt2, List.get?_cons_zero, List.get?_cons_succ, hj, List.set]
          exact set_pull_perm t j y z hj
    | succ i =>
      cases j with
      | zero =>
        cases hi : t.get? i with
        | none =>
          simp only [swapAt2, List.get?_cons_zero, List.get?_cons_succ, hi]
          exact List.Perm.refl _
        | some x =>
          simp only [swapAt2, List.get?_cons_zero, List.get?_cons_succ, hi, List.set]
          exact set_pull_perm t i x z hi
      | succ j =>
        cases hi : t.get? i with
        | none =>
          simp only [swapAt2, List.get?_cons_succ, hi]
          exact List.Perm.refl _
        | some x =>
          cases hj : t.get? j with
          | none =>
            simp only [swapAt2, List.get?_cons_succ, hi, hj]
            exact List.Perm.refl _
          | some y =>
            have hp := ih i j
            simp only [swapAt2, hi, hj] at hp
            simp only [swapAt2, List.get?_cons_succ, hi, hj, List.set]
            exact List.Perm.cons z hp

theorem shuffleAux_perm {α : Type} :
    ∀ (i : Nat) (a res : List α) (fuel : Nat) (g g2 : SeedRandom),
      shuffleAux i a fuel g = (Outcome.ok res, g2) → List.Perm res a := by
  intro i
  induction i with
  | zero =>
    intro a res fuel g g2 h
    simp only [shuffleAux] at h
    injection h with h1 h2
    injection h1 with h1
    subst h1
    exact List.Perm.refl _
  | succ i ih =>
    intro a res fuel g g2 h
    simp only [shuffleAux] at h
    split at h
    · rename_i j g3 heq
      exact (ih _ res fuel g3 g2 h).trans (swapAt2_perm a (i + 1) j.toNat)
    · exact absurd h (by simp)
    · exact absurd h (by simp)

/-- C7: whenever `shuffle` returns a sequence, that sequence is a
permutation of the input (same multiset of elements, hence same length);
the input itself, being shuffled on a copy, is left untouched. -/
theorem c7_shuffle_perm {α : Type} (fuel : Nat) (arr res : List α) (g g2 : SeedRandom)
    (h : SeedRandom.shuffle fuel arr g = (Outcome.ok res, g2)) :
    List.Perm res arr ∧ res.length = arr.length := by
  have hp := shuffleAux_perm (arr.length - 1) arr res fuel g g2 h
  exact ⟨hp, hp.length_eq⟩

theorem c7_witness :
    List.Perm [1, 4, 2, 3] [1, 2, 3, 4] ∧
    ([1, 4, 2, 3] : List Nat).length = ([1, 2, 3, 4] : List Nat).length :=
  c7_shuffle_perm 5 [1, 2, 3, 4] [1, 4, 2, 3] (mkSeedRandom (SeedInput.int 42) Algo.xoshiro)
    ⟨Algo.xoshiro, ⟨1843214009, 1629477093, 3693882720, 2146415245⟩,
      Core.xosh ⟨3775777715, 771253286, 115819026, 3903147532⟩⟩ (by decide)

/-! ### C9: hexColor digit derivation and its preimage counts -/

theorem hexDigits_lt {n : Nat} (h : n < 16) : hexDigits n = [n] := by
  rw [hexDigits]
  rw [dif_pos h]

theorem hexDigits_ge {n : Nat} (h : ¬ n < 16) :
    hexDigits n = hexDigits (n / 16) ++ [n % 16] := by
  rw [hexDigits]
  rw [dif_neg h]

theorem hexDigits_len_le : ∀ (k n : Nat), n < 16 ^ (k + 1) → (hexDigits n).length ≤ k + 1 := by
  intro k
  induction k with
  | zero =>
    intro n h
    rw [hexDigits_lt (by simpa using h)]
    simp
  | succ k ih =>
    intro n h
    by_cases h16 : n < 16
    · rw [hexDigits_lt h16]
      simp
    · rw [hexDigits_ge h16]
      have h2 : n < 16 * 16 ^ (k + 1) := by
        calc n < 16 ^ (k + 1 + 1) := h
        _ = 16 * 16 ^ (k + 1) := by ring
      have hdiv : n / 16 < 16 ^ (k + 1) := by omega
      have := ih (n / 16) hdiv
      simp only [List.length_append, List.length_cons, List.length_nil]
      omega

theorem hexDigits_div256 (v : Nat) (h : 256 ≤ v) :
    hexDigits v = hexDigits (v / 256) ++ [v / 16 % 16, v % 16] := by
  rw [hexDigits_ge (show ¬ v < 16 by omega)]
  rw [hexDigits_ge (show ¬ v / 16 < 16 by omega)]
  rw [Nat.div_div_eq_div_mul]
  norm_num

theorem unhex_append_singleton (l : List Nat) (d : Nat) :
    unhex (l ++ [d]) = 16 * unhex l + d := by
  unfold unhex
  rw [List.foldl_append]
  rfl

theorem unhex_hexDigits : ∀ n : Nat, unhex (hexDigits n) = n := by
  intro n
  induction n using Nat.strong_induction_on with
  | _ n ih =>
    by_cases h : n < 16
    · rw [hexDigits_lt h]
      simp [unhex]
    · rw [hexDigits_ge h, unhex_append_singleton,
        ih (n / 16) (Nat.div_lt_self (by omega) (by omega))]
      omega

theorem foldl_hex_replicate_zero (k : Nat) :
    List.foldl (fun acc d => 16 * acc + d) 0 (List.replicate k 0) = 0 := by
  induction k with
  | zero => rfl
  | succ k ih =>
    rw [List.replicate_succ, List.foldl_cons]
    simpa using ih

theorem unhex_replicate_zero (k : Nat) (l : List Nat) :
    unhex (List.replicate k 0 ++ l) = unhex l := by
  unfold unhex
  rw [List.foldl_append, foldl_hex_replicate_zero]

theorem pad6_inj {t1 t2 : Nat} (h : pad6 t1 = pad6 t2) : t1 = t2 := by
  have h1 : unhex (pad6 t1) = t1 := by
    unfold pad6
    rw [unhex_replicate_zero, unhex_hexDigits]
  have h2 : unhex (pad6 t2) = t2 := by
    unfold pad6
    rw [unhex_replicate_zero, unhex_hexDigits]
  rw [← h1, ← h2, h]

theorem hexColorDigits_eq_pad6 (v : Nat) (h : v < 2 ^ 32) :
    hexColorDigits v = pad6 (v / 256) := by
  by_cases h256 : v < 256
  · have h0 : v / 256 = 0 := Nat.div_eq_of_lt h256
    unfold hexColorDigits pad6
    rw [h0, hexDigits_lt (show (0 : Nat) < 16 by omega)]
    by_cases h16 : v < 16
    · rw [hexDigits_lt h16]
      simp only [List.length_cons, List.length_nil, List.take_append_eq_append_take,
        List.take_replicate, List.length_replicate]
      norm_num
      decide
    · rw [hexDigits_ge h16, hexDigits_lt (show v / 16 < 16 by omega)]
      simp only [List.length_append, List.length_cons, List.length_nil,
        List.take_append_eq_append_take, List.take_replicate, List.length_replicate]
      norm_num
      decide
  · have hd := hexDigits_div256 v (by omega)
    have h32 : (2 : Nat) ^ 32 = 4294967296 := by norm_num
    have h66 : (16 : Nat) ^ 6 = 16777216 := by norm_num
    have hq : v / 256 < 16 ^ (5 + 1) := by
      rw [h32] at h
      norm_num
      omega
    have hL : (hexDigits (v / 256)).length ≤ 6 := hexDigits_len_le 5 (v / 256) hq
    unfold hexColorDigits pad6
    rw [hd]
    generalize hG : hexDigits (v / 256) = D
    rw [hG] at hL
    simp only [List.length_append, List.length_cons, List.length_nil]
    have h86 : 8 - (D.length + (0 + 1 + 1)) = 6 - D.length := by omega
    rw [h86, ← List.append_assoc]
    rw [List.take_left' (by simp only [List.length_append, List.length_replicate]; omega)]

theorem hexColor_preimage_card (t : Nat) (ht : t < 16 ^ 6) :
    ((Finset.range (2 ^ 32)).filter (fun v => hexColorDigits v = pad6 t)).card = 256 := by
  have hpow6 : (16 : Nat) ^ 6 = 16777216 := by norm_num
  have hpow32 : (2 : Nat) ^ 32 = 4294967296 := by norm_num
  rw [hpow6] at ht
  have hset : (Finset.range (2 ^ 32)).filter (fun v => hexColorDigits v = pad6 t)
      = Finset.Ico (256 * t) (256 * t + 256) := by
    ext v
    simp only [Finset.mem_filter, Finset.mem_range, Finset.mem_Ico]
    constructor
    · rintro ⟨hv, heq⟩
      rw [hexColorDigits_eq_pad6 v hv] at heq
      have hvt := pad6_inj heq
      omega
    · rintro ⟨h1, h2⟩
      have hv : v < 2 ^ 32 := by
        rw [hpow32]
        omega
      refine ⟨hv, ?_⟩
      rw [hexColorDigits_eq_pad6 v hv]
      have hvt : v / 256 = t := by omega
      rw [hvt]
  rw [hset, Nat.card_Ico]
  omega

/-- C9 (counterexample): the claim of digit bias is false.  For every
6-hex-digit value that `hexColorDigits` actually outputs, the number of
32-bit `advance()` values mapping to it is exactly `2^8 = 256`, the count
a uniform 24-bit draw would give — so no output's preimage count differs
from `2^8`. -/
theorem c9_counterexample :
    ¬ ∃ v0, v0 < 2 ^ 32 ∧
      ((Finset.range (2 ^ 32)).filter
        (fun v => hexColorDigits v = hexColorDigits v0)).card ≠ 256 := by
  rintro ⟨v0, hv0, hne⟩
  apply hne
  simp only [hexColorDigits_eq_pad6 v0 hv0]
  apply hexColor_preimage_card
  have h32 : (2 : Nat) ^ 32 = 4294967296 := by norm_num
  have h6 : (16 : Nat) ^ 6 = 16777216 := by norm_num
  rw [h6]
  rw [h32] at hv0
  omega

/-- C9 (amended): `hexColor()`'s digit string is exactly the zero-padded
6-digit hex rendering of the draw's top 24 bits (`v / 256`), and every
output therefore has exactly `2^8` preimages among the `2^32` possible
draws: the truncation discards the low byte but introduces no bias in the
output distribution. -/
theorem c9_amended (v0 : Nat) (h : v0 < 2 ^ 32) :
    hexColorDigits v0 = pad6 (v0 / 256) ∧
    ((Finset.range (2 ^ 32)).filter
      (fun v => hexColorDigits v = hexColorDigits v0)).card = 256 := by
  refine ⟨hexColorDigits_eq_pad6 v0 h, ?_⟩
  simp only [hexColorDigits_eq_pad6 v0 h]
  apply hexColor_preimage_card
  have h32 : (2 : Nat) ^ 32 = 4294967296 := by norm_num
  have h6 : (16 : Nat) ^ 6 = 16777216 := by norm_num
  rw [h6]
  rw [h32] at h
  omega

theorem c9_witness :
    hexColorDigits 0 = pad6 (0 / 256) ∧
    ((Finset.range (2 ^ 32)).filter
      (fun v => hexColorDigits v = hexColorDigits 0)).card = 256 :=
  c9_amended 0 (by norm_num)

/-! ### C10: snapshot and seed-array aliasing isolation -/

theorem Heap.read_write_ne (h : Heap) (r x : Nat) (v : Vec4) (hne : x ≠ r) :
    (h.write r v).read x = h.read x := by
  unfold Heap.read Heap.write
  simp only [List.getD_eq_getElem?_getD]
  rw [List.getElem?_set_ne (Ne.symm hne)]

theorem Heap.write_comm (h : Heap) (r x : Nat) (v w : Vec4) (hne : x ≠ r) :
    (h.write r v).write x w = (h.write x w).write r v := by
  unfold Heap.write
  exact congrArg Heap.mk (List.set_comm v w h.cells (Ne.symm hne))

theorem Heap.read_alloc_self (h : Heap) (v : Vec4) :
    (h.alloc v).1.read h.cells.length = v := by
  unfold Heap.alloc Heap.read
  simp [List.getD_eq_getElem?_getD, List.getElem?_concat_length]

theorem hDrawsN_write_frame :
    ∀ (k : Nat) (g : HGen) (h : Heap) (r : Nat) (v : Vec4),
      (∀ x, g.core = HCore.xosh x → x ≠ r) →
      (hDrawsN k g (h.write r v)).1 = (hDrawsN k g h).1 ∧
      (hDrawsN k g (h.write r v)).2.1 = (hDrawsN k g h).2.1 ∧
      (hDrawsN k g (h.write r v)).2.2 = ((hDrawsN k g h).2.2).write r v := by
  intro k
  induction k with
  | zero =>
    intro g h r v hx
    exact ⟨rfl, rfl, rfl⟩
  | succ k ih =>
    intro g h r v hx
    cases hc : g.core with
    | mulb t =>
      have e1 : HGen.uint32 g (h.write r v) =
          ((mulberryNext t).1, { g with core := HCore.mulb (mulberryNext t).2 }, h.write r v) := by
        unfold HGen.uint32
        rw [hc]
      have e2 : HGen.uint32 g h =
          ((mulberryNext t).1, { g with core := HCore.mulb (mulberryNext t).2 }, h) := by
        unfold HGen.uint32
        rw [hc]
      simp only [hDrawsN, e1, e2]
      obtain ⟨i1, i2, i3⟩ := ih { g with core := HCore.mulb (mulberryNext t).2 } h r v
        (by intro x hcx; exact absurd hcx (by simp))
      exact ⟨by rw [i1], i2, i3⟩
    | xosh sr =>
      have hsr : sr ≠ r := hx sr hc
      have er : (h.write r v).read sr = h.read sr := Heap.read_write_ne h r sr v hsr
      have e1 : HGen.uint32 g (h.write r v) =
          ((xoNext (h.read sr)).1, g, (h.write r v).write sr (xoNext (h.read sr)).2) := by
        unfold HGen.uint32
        rw [hc]
        simp only [er]
      have e2 : HGen.uint32 g h =
          ((xoNext (h.read sr)).1, g, h.write sr (xoNext (h.read sr)).2) := by
        unfold HGen.uint32
        rw [hc]
      simp only [hDrawsN, e1, e2]
      rw [Heap.write_comm h r sr v _ hsr]
      obtain ⟨i1, i2, i3⟩ := ih g (h.write sr (xoNext (h.read sr)).2) r v hx
      exact ⟨by rw [i1], i2, i3⟩

theorem hGetState_xosh (g : HGen) (h : Heap) (rx : Nat) (hc : g.core = HCore.xosh rx) :
    HGen.getState g h = (some h.cells.length, ⟨h.cells ++ [h.read rx]⟩) := by
  unfold HGen.getState Heap.alloc
  rw [hc]

theorem hSetState_xosh (g : HGen) (h : Heap) (rx stRef : Nat) (hc : g.core = HCore.xosh rx) :
    HGen.setState g stRef h =
      (Outcome.ok (), { g with core := HCore.xosh h.cells.length },
        ⟨h.cells ++ [h.read stRef]⟩) := by
  unfold HGen.setState Heap.alloc
  rw [hc]

/-- C10: in the heap model of array aliasing, `getState()` on a xoshiro
generator returns a reference to a freshly allocated copy of the state
array, `setState` rebinds the core to a freshly allocated copy of the
snapshot array, and overwriting either snapshot array afterwards — or the
`#seed` array aliased by `getSeed()` — never changes the generator's
subsequent `uint32()` outputs. -/
theorem c10_snapshot_isolation (g : HGen) (h1 : Heap) (rx stRef k : Nat) (w : Vec4)
    (hc : g.core = HCore.xosh rx) (hrx : rx < h1.cells.length)
    (hsne : g.seedRef ≠ rx) (hst : stRef < h1.cells.length) :
    ((HGen.getState g h1).1 = some h1.cells.length ∧
      (HGen.getState g h1).2.read h1.cells.length = h1.read rx ∧
      (hDrawsN k g (((HGen.getState g h1).2).write h1.cells.length w)).1 =
        (hDrawsN k g ((HGen.getState g h1).2)).1) ∧
    ((HGen.setState g stRef h1).2.1.core = HCore.xosh h1.cells.length ∧
      (HGen.setState g stRef h1).2.2.read h1.cells.length = h1.read stRef ∧
      (hDrawsN k (HGen.setState g stRef h1).2.1
          (((HGen.setState g stRef h1).2.2).write stRef w)).1 =
        (hDrawsN k (HGen.setState g stRef h1).2.1 ((HGen.setState g stRef h1).2.2)).1) ∧
    (hDrawsN k g (h1.write (HGen.getSeed g) w)).1 = (hDrawsN k g h1).1 := by
  have hgs := hGetState_xosh g h1 rx hc
  have hss := hSetState_xosh g h1 rx stRef hc
  refine ⟨⟨?_, ?_, ?_⟩, ⟨?_, ?_, ?_⟩, ?_⟩
  · rw [hgs]
  · rw [hgs]
    exact Heap.read_alloc_self h1 (h1.read rx)
  · rw [hgs]
    refine (hDrawsN_write_frame k g _ h1.cells.length w ?_).1
    intro x hcx
    rw [hc] at hcx
    injection hcx with e
    omega
  · rw [hss]
  · rw [hss]
    exact Heap.read_alloc_self h1 (h1.read stRef)
  · rw [hss]
    refine (hDrawsN_write_frame k _ _ stRef w ?_).1
    intro x hcx
    simp only at hcx
    injection hcx with e
    omega
  · refine (hDrawsN_write_frame k g h1 (HGen.getSeed g) w ?_).1
    intro x hcx
    rw [hc] at hcx
    injection hcx with e
    unfold HGen.getSeed
    omega

theorem c10_witness :
    ((HGen.getState hGenEx hHeapEx).1 = some hHeapEx.cells.length ∧
      (HGen.getState hGenEx hHeapEx).2.read hHeapEx.cells.length = hHeapEx.read 1 ∧
      (hDrawsN 1 hGenEx
          (((HGen.getState hGenEx hHeapEx).2).write hHeapEx.cells.length ⟨9, 9, 9, 9⟩)).1 =
        (hDrawsN 1 hGenEx ((HGen.getState hGenEx hHeapEx).2)).1) ∧
    ((HGen.setState hGenEx 0 hHeapEx).2.1.core = HCore.xosh hHeapEx.cells.length ∧
      (HGen.setState hGenEx 0 hHeapEx).2.2.read hHeapEx.cells.length = hHeapEx.read 0 ∧
      (hDrawsN 1 (HGen.setState hGenEx 0 hHeapEx).2.1
          (((HGen.setState hGenEx 0 hHeapEx).2.2).write 0 ⟨9, 9, 9, 9⟩)).1 =
        (hDrawsN 1 (HGen.setState hGenEx 0 hHeapEx).2.1
          ((HGen.setState hGenEx 0 hHeapEx).2.2)).1) ∧
    (hDrawsN 1 hGenEx (hHeapEx.write (HGen.getSeed hGenEx) ⟨9, 9, 9, 9⟩)).1 =
      (hDrawsN 1 hGenEx hHeapEx).1 :=
  c10_snapshot_isolation hGenEx hHeapEx 1 0 1 ⟨9, 9, 9, 9⟩ (by decide) (by decide)
    (by decide) (by decide)
